import Mathlib

/-!
# Verification of the gene-expression drug-suggestion pipeline

A shallow embedding, in Lean 4, of the data-shaping logic of the
`Make-suggestion-with-gene-expression-data` repository:

* `signiture.py` — label-file parsing, low-count filtering, signature
  derivation from a differential-expression result table, and the
  per-file majority-vote reconciliation;
* `analyze.py` — top-10 drug-candidate selection from the summary matrix;
* `cmap.py` — the status-polling loop and the result-retrieval step;
* `recommendation.py` — ChEMBL name resolution, first-seen-wins
  deduplication, the similarity phase, and its failure modes.

External collaborators (pandas, pydeseq2, HTTP services, the file system)
enter only through their values: matrices are lists of rows, result tables
are lists of records, remote lookups are function parameters, and the
polling loop is given the stream of statuses it would observe.  `pandas`
`sort_values` is called with its default `kind='quicksort'`, which is not
a stable sort, so it is modelled as an arbitrary function satisfying the
contract `SortsBy` — the output is an ascending permutation of the input,
with the ordering of tied keys unspecified.  Two concrete contract
instances, a stable insertion sort and a tie-reversing one, serve as
witnesses and counterexamples.
-/

namespace BioDB

/-! ## Sorting

`pandas.sort_values` with the default `kind='quicksort'` guarantees an
ascending reordering and nothing about ties, captured by the contract
`SortsBy` below.  `insertSorted`/`isortBy` build one compliant instance
(a stable insertion sort) and `antiSortBy` another (ties come out in
reversed input order). -/

/-- Insert `x` into `l`, placing it before the first element `y` with
`le x y = true`.  Used with a total preorder `le`, this is the insertion
step of a stable insertion sort. -/
def insertSorted (le : α → α → Bool) (x : α) : List α → List α
  | [] => [x]
  | y :: l => if le x y then x :: y :: l else y :: insertSorted le x l

/-- Stable insertion sort by the Boolean relation `le`: elements that
compare equal keep their original relative order. -/
def isortBy (le : α → α → Bool) (l : List α) : List α :=
  l.foldr (insertSorted le) []

theorem isortBy_nil (le : α → α → Bool) : isortBy le [] = [] := rfl

theorem isortBy_cons (le : α → α → Bool) (x : α) (l : List α) :
    isortBy le (x :: l) = insertSorted le x (isortBy le l) := rfl

theorem length_insertSorted (le : α → α → Bool) (x : α) (l : List α) :
    (insertSorted le x l).length = l.length + 1 := by
  induction l with
  | nil => rfl
  | cons y t ih =>
    simp only [insertSorted]
    split <;> simp [ih]

theorem length_isortBy (le : α → α → Bool) (l : List α) :
    (isortBy le l).length = l.length := by
  induction l with
  | nil => rfl
  | cons x t ih =>
    rw [isortBy_cons, length_insertSorted, ih]
    rfl

theorem mem_insertSorted (le : α → α → Bool) (x a : α) (l : List α) :
    a ∈ insertSorted le x l ↔ a = x ∨ a ∈ l := by
  induction l with
  | nil => simp [insertSorted]
  | cons y t ih =>
    simp only [insertSorted]
    split
    · simp only [List.mem_cons]
    · simp only [List.mem_cons, ih]
      tauto

theorem mem_isortBy (le : α → α → Bool) (a : α) (l : List α) :
    a ∈ isortBy le l ↔ a ∈ l := by
  induction l with
  | nil => simp [isortBy]
  | cons x t ih =>
    rw [isortBy_cons, mem_insertSorted, ih, List.mem_cons]

theorem pairwise_insertSorted (le : α → α → Bool)
    (htrans : ∀ a b c, le a b = true → le b c = true → le a c = true)
    (htot : ∀ a b, le a b = false → le b a = true)
    (x : α) (l : List α) (h : l.Pairwise (fun a b => le a b = true)) :
    (insertSorted le x l).Pairwise (fun a b => le a b = true) := by
  induction l with
  | nil => simp [insertSorted]
  | cons y t ih =>
    simp only [insertSorted]
    rcases List.pairwise_cons.mp h with ⟨hy, ht⟩
    split
    · rename_i hxy
      refine List.pairwise_cons.mpr ⟨?_, h⟩
      intro b hb
      rcases List.mem_cons.mp hb with rfl | hb
      · exact hxy
      · exact htrans x y b hxy (hy b hb)
    · rename_i hxy
      refine List.pairwise_cons.mpr ⟨?_, ih ht⟩
      intro b hb
      rw [mem_insertSorted] at hb
      rcases hb with rfl | hb
      · exact htot b y (by simpa using hxy)
      · exact hy b hb

/-- A stable sort is pairwise-sorted with respect to `le`. -/
theorem pairwise_isortBy (le : α → α → Bool)
    (htrans : ∀ a b c, le a b = true → le b c = true → le a c = true)
    (htot : ∀ a b, le a b = false → le b a = true)
    (l : List α) :
    (isortBy le l).Pairwise (fun a b => le a b = true) := by
  induction l with
  | nil => simp [isortBy]
  | cons x t ih =>
    rw [isortBy_cons]
    exact pairwise_insertSorted le htrans htot x _ ih

theorem insertSorted_perm (le : α → α → Bool) (x : α) (l : List α) :
    (insertSorted le x l).Perm (x :: l) := by
  induction l with
  | nil => exact List.Perm.refl _
  | cons y t ih =>
    simp only [insertSorted]
    split
    · exact List.Perm.refl _
    · exact (ih.cons y).trans (List.Perm.swap x y t)

theorem isortBy_perm (le : α → α → Bool) (l : List α) :
    (isortBy le l).Perm l := by
  induction l with
  | nil => exact List.Perm.refl _
  | cons x t ih =>
    rw [isortBy_cons]
    exact (insertSorted_perm le x _).trans (ih.cons x)

/-- The contract `pandas.sort_values` does guarantee: the output is a
permutation of the input, ascending in the sort key.  The default
`kind='quicksort'` is not a stable sort, so the ordering of tied keys is
*not* part of the contract: any `SortsBy`-compliant function is a faithful
model of one possible `sort_values` behaviour. -/
def SortsBy (le : α → α → Bool) (f : List α → List α) : Prop :=
  ∀ l : List α, (f l).Perm l ∧ (f l).Pairwise (fun a b => le a b = true)

/-- The stable insertion sort is one compliant `sort_values` behaviour. -/
theorem isortBy_sortsBy (le : α → α → Bool)
    (htrans : ∀ a b c, le a b = true → le b c = true → le a c = true)
    (htot : ∀ a b, le a b = false → le b a = true) :
    SortsBy le (isortBy le) :=
  fun l => ⟨isortBy_perm le l, pairwise_isortBy le htrans htot l⟩

/-- A compliant but tie-reversing sort: reverse the input, then
insertion-sort.  Ties come out in reversed input order, exhibiting an
ascending reordering a stable sort would never produce. -/
def antiSortBy (le : α → α → Bool) (l : List α) : List α :=
  isortBy le l.reverse

/-- The tie-reversing sort also satisfies the `sort_values` contract. -/
theorem antiSortBy_sortsBy (le : α → α → Bool)
    (htrans : ∀ a b c, le a b = true → le b c = true → le a c = true)
    (htot : ∀ a b, le a b = false → le b a = true) :
    SortsBy le (antiSortBy le) :=
  fun l => ⟨(isortBy_perm le l.reverse).trans (List.reverse_perm l),
            pairwise_isortBy le htrans htot l.reverse⟩

/-- Ascending permutations of one another agree when the key admits no
ties among the listed elements: on tie-free inputs, every compliant
`sort_values` behaviour produces the same output. -/
theorem sorted_perm_eq (le : α → α → Bool) :
    ∀ l₁ l₂ : List α, l₁.Perm l₂ →
      l₁.Pairwise (fun a b => le a b = true) →
      l₂.Pairwise (fun a b => le a b = true) →
      (∀ a ∈ l₂, ∀ b ∈ l₂, le a b = true → le b a = true → a = b) →
      l₁ = l₂ := by
  intro l₁
  induction l₁ with
  | nil =>
    intro l₂ hp _ _ _
    exact (hp.symm.eq_nil).symm
  | cons x t₁ ih =>
    intro l₂ hp hs₁ hs₂ hanti
    cases l₂ with
    | nil => exact absurd hp.eq_nil (by simp)
    | cons y t₂ =>
      have hxy : x = y := by
        by_cases hxy' : x = y
        · exact hxy'
        · have hxl₂ : x ∈ y :: t₂ := hp.mem_iff.mp (by simp)
          have hyl₁ : y ∈ x :: t₁ := hp.mem_iff.mpr (by simp)
          have hxt₂ : x ∈ t₂ := by
            rcases List.mem_cons.mp hxl₂ with h | h
            · exact absurd h hxy'
            · exact h
          have hyt₁ : y ∈ t₁ := by
            rcases List.mem_cons.mp hyl₁ with h | h
            · exact absurd h.symm hxy'
            · exact h
          have h1 : le x y = true := (List.pairwise_cons.mp hs₁).1 y hyt₁
          have h2 : le y x = true := (List.pairwise_cons.mp hs₂).1 x hxt₂
          exact hanti x hxl₂ y (by simp) h1 h2
      subst hxy
      have hpt : t₁.Perm t₂ := hp.cons_inv
      have htail := ih t₂ hpt (List.pairwise_cons.mp hs₁).2
        (List.pairwise_cons.mp hs₂).2
        (fun a ha b hb => hanti a (by simp [ha]) b (by simp [hb]))
      rw [htail]

/-! ## `signiture.py` — signature derivation (`_signiture_analysis`) -/

/-- One row of the DESeq2 result table (`ds.results_df`): the gene symbol
(the row index), the effect size `log2FoldChange` and the adjusted p-value
`padj`.  `padj` is `none` when the statistics library reports `NaN`;
a pandas comparison with `NaN` is false, and `NaN` sorts last. -/
structure DEGRow where
  gene : String
  log2FoldChange : ℚ
  padj : Option ℚ
deriving DecidableEq, Repr

/-- Order on `padj` keys used by `sort_values("padj", ascending=True)`:
missing values (`NaN`) sort after every number (`na_position='last'`). -/
def padjLE : Option ℚ → Option ℚ → Bool
  | none, none => true
  | none, some _ => false
  | some _, none => true
  | some p, some q => p ≤ q

/-- Row comparison for `sort_values("padj", ascending=True)`. -/
def rowLE (a b : DEGRow) : Bool := padjLE a.padj b.padj

/-- `res["padj"] < 0.1` (false on `NaN`).  The threshold `0.1` is written
`mkRat 1 10` so that concrete instances evaluate inside the kernel. -/
def significant (r : DEGRow) : Bool :=
  match r.padj with
  | some p => p < mkRat 1 10
  | none => false

/-- `res["log2FoldChange"] > 0`. -/
def upDir (r : DEGRow) : Bool := 0 < r.log2FoldChange

/-- `res["log2FoldChange"] < 0`. -/
def downDir (r : DEGRow) : Bool := r.log2FoldChange < 0

/-- One directional side of `_signiture_analysis`, translated from the
source with `sort_values("padj", ascending=True)` abstracted as `sortfn`
(the caller supplies any `SortsBy rowLE` function — pandas' default
`kind='quicksort'` fixes no tie order): sort the significant rows of the
direction; if fewer than `N = 30` remain, take instead the first 30 of
the whole direction side of `res` sorted by `padj`; otherwise truncate
to 30. -/
def signitureSideWith (sortfn : List DEGRow → List DEGRow)
    (dir : DEGRow → Bool) (res : List DEGRow) : List DEGRow :=
  let deg := res.filter significant
  let sorted := sortfn (deg.filter dir)
  if sorted.length < 30 then
    (sortfn (res.filter dir)).take 30
  else
    sorted.take 30

/-- `_signiture_analysis` with the sort abstracted: the pair of up- and
down-regulated gene-symbol lists derived from a DESeq2 result table. -/
def signitureAnalysisWith (sortfn : List DEGRow → List DEGRow)
    (res : List DEGRow) : List String × List String :=
  ((signitureSideWith sortfn upDir res).map DEGRow.gene,
   (signitureSideWith sortfn downDir res).map DEGRow.gene)

theorem padjLE_trans :
    ∀ a b c : Option ℚ, padjLE a b = true → padjLE b c = true →
      padjLE a c = true
  | none, none, none, _, _ => rfl
  | none, none, some _, _, h => h
  | none, some _, _, h, _ => by simp [padjLE] at h
  | some _, none, none, _, _ => rfl
  | some _, none, some _, _, h => by simp [padjLE] at h
  | some _, some _, none, _, _ => rfl
  | some p, some q, some r, h₁, h₂ => by
    simp only [padjLE, decide_eq_true_eq] at h₁ h₂ ⊢
    exact le_trans h₁ h₂

theorem padjLE_total :
    ∀ a b : Option ℚ, padjLE a b = false → padjLE b a = true
  | none, none, h => by simp [padjLE] at h
  | none, some _, _ => rfl
  | some _, none, h => by simp [padjLE] at h
  | some p, some q, h => by
    simp only [padjLE, decide_eq_false_iff_not] at h
    simp only [padjLE, decide_eq_true_eq]
    exact le_of_lt (not_le.mp h)

theorem rowLE_trans (a b c : DEGRow) (h₁ : rowLE a b = true)
    (h₂ : rowLE b c = true) : rowLE a c = true :=
  padjLE_trans _ _ _ h₁ h₂

theorem rowLE_total (a b : DEGRow) (h : rowLE a b = false) :
    rowLE b a = true :=
  padjLE_total _ _ h

/-- In the `padj` order, everything at or below a significant row is
itself significant: significant rows occupy a prefix of any ascending
ordering. -/
theorem significant_of_rowLE (a b : DEGRow) (hab : rowLE a b = true)
    (hb : significant b = true) : significant a = true := by
  unfold rowLE at hab
  unfold significant at hb ⊢
  cases hpb : b.padj with
  | none => rw [hpb] at hb; simp at hb
  | some p =>
    rw [hpb] at hb hab
    cases hpa : a.padj with
    | none => rw [hpa] at hab; simp [padjLE] at hab
    | some q =>
      rw [hpa] at hab
      simp only [padjLE, decide_eq_true_eq] at hab
      simp only [decide_eq_true_eq] at hb ⊢
      exact lt_of_le_of_lt hab hb

/-- Two significant, up-regulated rows with exactly tied `padj`. -/
def c4TieRow1 : DEGRow := ⟨"g1", 1, some (mkRat 1 100)⟩

/-- See `c4TieRow1`: the later tied row. -/
def c4TieRow2 : DEGRow := ⟨"g2", 1, some (mkRat 1 100)⟩

/-- A DESeq2 result table whose two rows tie on `padj`. -/
def c4TieTable : List DEGRow := [c4TieRow1, c4TieRow2]

/-- C4 counterexample: the claim prescribes ties broken by original row
order (a stable sort), which on `c4TieTable` forces the up list
`["g1", "g2"]` (fourth conjunct, the stable instance).  But
`sort_values` uses pandas' default `kind='quicksort'`, which is not
stable: its contract admits the tie-reversing `antiSortBy rowLE`, which
on the lists this input ever sorts is an ascending permutation (first
three conjuncts) yet makes `_signiture_analysis` emit `["g2", "g1"]`
(fifth conjunct).  The program therefore does not guarantee the
stable-tie output the claim states. -/
theorem C4_stable_tie_counterexample :
    antiSortBy rowLE c4TieTable = [c4TieRow2, c4TieRow1]
    ∧ (antiSortBy rowLE c4TieTable).Perm c4TieTable
    ∧ (antiSortBy rowLE c4TieTable).Pairwise (fun a b => rowLE a b = true)
    ∧ signitureAnalysisWith (isortBy rowLE) c4TieTable = (["g1", "g2"], [])
    ∧ signitureAnalysisWith (antiSortBy rowLE) c4TieTable = (["g2", "g1"], []) := by
  refine ⟨by decide, ?_, by decide, by decide, by decide⟩
  rw [show antiSortBy rowLE c4TieTable = [c4TieRow2, c4TieRow1] by decide]
  exact List.Perm.swap c4TieRow1 c4TieRow2 []

/-- C4 (amended): for every `sort_values` behaviour permitted by its
contract (`SortsBy rowLE`), `_signiture_analysis` splits by the sign of
`log2FoldChange` into the two directional sides (first conjunct), and on
each side: at most 30 rows are selected, ascending in `padj`; every
selected row comes from the result table and its direction; rows that
pass the `padj < 0.1` significance filter always precede rows that do
not; when at least 30 rows of the side pass the filter the selection is
entirely significant; and when fewer than 30 pass, the side falls back to
the full unfiltered direction side sorted by `padj`, in which case every
significant row of the side is still selected — the rest is backfill.
Tie order is *not* determined: the counterexample shows two compliant
sorts yielding different outputs, so the claim's "ties broken by original
row order (stable sort)" clause does not hold of the program. -/
theorem C4_signiture_analysis_unstable_sort :
    (∀ (sortfn : List DEGRow → List DEGRow) (res : List DEGRow),
      signitureAnalysisWith sortfn res =
        ((signitureSideWith sortfn upDir res).map DEGRow.gene,
         (signitureSideWith sortfn downDir res).map DEGRow.gene))
    ∧ (∀ sortfn : List DEGRow → List DEGRow, SortsBy rowLE sortfn →
      ∀ (dir : DEGRow → Bool) (res : List DEGRow),
        (signitureSideWith sortfn dir res).length ≤ 30
        ∧ (signitureSideWith sortfn dir res).Pairwise
            (fun a b => rowLE a b = true)
        ∧ (signitureSideWith sortfn dir res).Pairwise
            (fun a b => significant b = true → significant a = true)
        ∧ (∀ r ∈ signitureSideWith sortfn dir res, r ∈ res ∧ dir r = true)
        ∧ (30 ≤ ((res.filter significant).filter dir).length →
            ∀ r ∈ signitureSideWith sortfn dir res, significant r = true)
        ∧ (((res.filter significant).filter dir).length < 30 →
            ∀ r ∈ (res.filter significant).filter dir,
              r ∈ signitureSideWith sortfn dir res)) := by
  constructor
  · intro sortfn res
    rfl
  · intro sortfn hs dir res
    have hout : signitureSideWith sortfn dir res =
        if (sortfn ((res.filter significant).filter dir)).length < 30 then
          (sortfn (res.filter dir)).take 30
        else (sortfn ((res.filter significant).filter dir)).take 30 := rfl
    have hsubsort : ∀ l : List DEGRow,
        ∀ r ∈ (sortfn l).take 30, r ∈ l := by
      intro l r hr
      exact ((hs l).1.mem_iff).mp (List.take_subset _ _ hr)
    have hpair30 : ∀ l : List DEGRow,
        ((sortfn l).take 30).Pairwise (fun a b => rowLE a b = true) := by
      intro l
      exact ((hs l).2).sublist (List.take_sublist 30 _)
    refine ⟨?_, ?_, ?_, ?_, ?_, ?_⟩
    · rw [hout]
      split <;> · rw [List.length_take]; exact min_le_left _ _
    · rw [hout]
      split <;> exact hpair30 _
    · rw [hout]
      split <;> exact (hpair30 _).imp (fun hab hsb => significant_of_rowLE _ _ hab hsb)
    · rw [hout]
      split
      · intro r hr
        have := hsubsort _ r hr
        rw [List.mem_filter] at this
        exact this
      · intro r hr
        have := hsubsort _ r hr
        rw [List.mem_filter] at this
        rcases this with ⟨hmem, hdir⟩
        rw [List.mem_filter] at hmem
        exact ⟨hmem.1, hdir⟩
    · intro h30 r hr
      rw [hout] at hr
      have hlen : (sortfn ((res.filter significant).filter dir)).length =
          ((res.filter significant).filter dir).length :=
        (hs _).1.length_eq
      rw [if_neg (by omega)] at hr
      have := hsubsort _ r hr
      rw [List.mem_filter] at this
      have hmem := this.1
      rw [List.mem_filter] at hmem
      exact hmem.2
    · intro hlt r hr
      have hlen : (sortfn ((res.filter significant).filter dir)).length =
          ((res.filter significant).filter dir).length :=
        (hs _).1.length_eq
      rw [hout, if_pos (by omega)]
      have hrsig : significant r = true := by
        have := hr
        rw [List.mem_filter] at this
        have hmem := this.1
        rw [List.mem_filter] at hmem
        exact hmem.2
      have hrF : r ∈ res.filter dir := by
        have hSF : (res.filter significant).filter dir =
            (res.filter dir).filter significant := List.filter_comm _ _ _
        rw [hSF, List.mem_filter] at hr
        exact hr.1
      set L := sortfn (res.filter dir) with hL
      have hpermF : L.Perm (res.filter dir) := (hs _).1
      have hrL : r ∈ L := hpermF.mem_iff.mpr hrF
      by_contra hnot
      have hrdrop : r ∈ L.drop 30 := by
        have hsplit : L.take 30 ++ L.drop 30 = L := List.take_append_drop 30 L
        rw [← hsplit] at hrL
        rcases List.mem_append.mp hrL with h | h
        · exact absurd h hnot
        · exact h
      have hrel : ∀ a ∈ L.take 30, rowLE a r = true := by
        have hpw : (L.take 30 ++ L.drop 30).Pairwise (fun a b => rowLE a b = true) := by
          rw [List.take_append_drop]
          exact (hs _).2
        intro a ha
        exact (List.pairwise_append.mp hpw).2.2 a ha r hrdrop
      have hallsig : ∀ a ∈ L.take 30, significant a = true :=
        fun a ha => significant_of_rowLE a r (hrel a ha) hrsig
      have hlen30 : (L.take 30).length = 30 := by
        have hdlen : 0 < (L.drop 30).length := List.length_pos_of_mem hrdrop
        rw [List.length_drop] at hdlen
        rw [List.length_take]
        omega
      have hcount_take : (L.take 30).countP significant = 30 := by
        rw [List.countP_eq_length.mpr hallsig, hlen30]
      have hcount_drop : 0 < (L.drop 30).countP significant :=
        List.countP_pos_iff.mpr ⟨r, hrdrop, hrsig⟩
      have hcount_all : L.countP significant =
          (L.take 30).countP significant + (L.drop 30).countP significant := by
        conv_lhs => rw [← List.take_append_drop 30 L]
        exact List.countP_append _ _ _
      have hcount_S : L.countP significant =
          ((res.filter significant).filter dir).length := by
        rw [hpermF.countP_eq]
        rw [List.filter_comm, List.countP_eq_length_filter]
      omega

/-- Witness for C4's amended theorem at a concrete compliant sort (the
stable insertion sort, `SortsBy` by `isortBy_sortsBy`) and a concrete
table: with fewer than 30 significant up-rows, the significant row
`c4TieRow1` is still selected by the fallback. -/
theorem C4_signiture_analysis_unstable_sort_witness :
    c4TieRow1 ∈ signitureSideWith (isortBy rowLE) upDir c4TieTable :=
  (C4_signiture_analysis_unstable_sort.2 (isortBy rowLE)
      (isortBy_sortsBy rowLE rowLE_trans rowLE_total) upDir
      c4TieTable).2.2.2.2.2 (by decide) c4TieRow1 (by decide)

/-! ## `signiture.py` — low-count filtering

Both `_regularization_protocol` (line 76) and
`_regularization_single_protocol` (line 173) run the same line on the
transposed count matrix: `counts_df = counts_df[~(counts_df.lt(10).all(axis=1))]`.
A matrix is a list of rows; before the transpose the rows are genes and the
columns samples, after `counts_df.T` the rows are samples and the columns
genes.  Counts are integers (`fillna(0)` has already run). -/

/-- The low-count filter of both regularization protocols: keep exactly
the rows of the (already transposed) matrix in which not every value is
below 10. -/
def lowCountFilter (m : List (List ℤ)) : List (List ℤ) :=
  m.filter (fun row => !(row.all (fun v => v < 10)))

/-- The matrix handed to the low-count filter in either protocol: the
samples×genes transpose of the genes×samples count matrix. -/
def transposedCounts (counts : List (List ℤ)) : List (List ℤ) :=
  counts.transpose

/-- C3 counterexample: a 2-gene × 2-sample count matrix in which gene 0
(the pre-transpose row `[5, 3]`) has every value below 10.  The claim says
the low-count filter removes that gene; in fact the filter runs on the
rows of the transposed matrix — the samples `[5, 20]` and `[3, 15]`, each
of which holds a value ≥ 10 — so nothing at all is removed and the
all-below-10 gene survives into the model. -/
theorem C3_gene_filter_counterexample :
    (([5, 3] : List ℤ).all (fun v => v < 10)) = true
    ∧ transposedCounts [[5, 3], [20, 15]] = [[5, 20], [3, 15]]
    ∧ lowCountFilter (transposedCounts [[5, 3], [20, 15]]) = [[5, 20], [3, 15]] := by
  refine ⟨by decide, by decide, by decide⟩

/-- C3 (amended): in both signature-extraction protocols, after the count
matrix is transposed to samples×genes, the low-count filter removes
exactly the rows of the transposed matrix — the samples — whose values are
all below 10: a row survives iff it belongs to the transposed matrix and
holds at least one value ≥ 10.  Genes (columns) are never dropped by this
step. -/
theorem C3_low_count_filter_drops_sample_rows :
    ∀ (counts : List (List ℤ)) (row : List ℤ),
      row ∈ lowCountFilter (transposedCounts counts) ↔
        row ∈ transposedCounts counts ∧ ∃ v ∈ row, 10 ≤ v := by
  intro counts row
  unfold lowCountFilter
  rw [List.mem_filter]
  constructor
  · rintro ⟨hmem, hcond⟩
    refine ⟨hmem, ?_⟩
    rw [Bool.not_eq_true', List.all_eq_false] at hcond
    obtain ⟨v, hv, hlt⟩ := hcond
    refine ⟨v, hv, ?_⟩
    simp only [decide_eq_true_eq] at hlt
    omega
  · rintro ⟨hmem, v, hv, hge⟩
    refine ⟨hmem, ?_⟩
    rw [Bool.not_eq_true', List.all_eq_false]
    refine ⟨v, hv, ?_⟩
    simp only [decide_eq_true_eq]
    omega

/-! ## `signiture.py` — per-file majority vote (`extract_signiture`) -/

/-- The majority-vote reconciliation of the per-file protocol
(`extract_signiture`, lines 228–229): the per-file gene lists are
concatenated (`up_gene.extend(sig_up)` per file) and a gene occurrence is
kept iff `up_gene.count(g) >= len(file_groups) / 2`, with `/` the Python
true division (written `mkRat _ 2` here so instances compute). -/
def majorityVote (perFileLists : List (List String)) : List String :=
  let allGenes := perFileLists.flatten
  allGenes.filter (fun g => mkRat perFileLists.length 2 ≤ (allGenes.count g : ℚ))

theorem majorityVote_cond (n k : ℕ) :
    mkRat n 2 ≤ (k : ℚ) ↔ (n + 1) / 2 ≤ k := by
  rw [Rat.mkRat_eq_div]
  push_cast
  rw [div_le_iff₀ (by norm_num : (0:ℚ) < 2)]
  constructor
  · intro h
    have hc : (n : ℚ) ≤ ((2 * k : ℕ) : ℚ) := by push_cast; linarith
    have hn : n ≤ 2 * k := Nat.cast_le.mp hc
    omega
  · intro h
    have hn : n ≤ 2 * k := by omega
    have hc : (n : ℚ) ≤ ((2 * k : ℕ) : ℚ) := Nat.cast_le.mpr hn
    push_cast at hc
    linarith

/-- C5: in the per-file protocol, a gene appears in the reconciled list iff
its occurrence count across the concatenated per-file lists is at least
`ceil(numFiles / 2)` (equal to `(numFiles + 1) / 2` in natural-number
division); in particular, with 4 files a gene appearing in exactly 2 lists
is retained (see the witness). -/
theorem C5_majority_vote_ceil (perFileLists : List (List String)) (g : String)
    (h : 1 ≤ perFileLists.length) :
    g ∈ majorityVote perFileLists ↔
      (perFileLists.length + 1) / 2 ≤ perFileLists.flatten.count g := by
  unfold majorityVote
  rw [List.mem_filter]
  constructor
  · rintro ⟨-, hcond⟩
    exact (majorityVote_cond _ _).mp (of_decide_eq_true hcond)
  · intro hcount
    refine ⟨?_, decide_eq_true ((majorityVote_cond _ _).mpr hcount)⟩
    have hpos : 0 < perFileLists.flatten.count g := by omega
    exact List.count_pos_iff.mp hpos

/-- Witness for C5 at the concrete input of the claim: 4 per-file up-lists
and the gene `g1` occurring in exactly 2 of them is retained. -/
theorem C5_majority_vote_ceil_witness :
    1 ≤ ([["g1"], ["g1"], ["g2"], ["g3"]] : List (List String)).length ∧
      "g1" ∈ majorityVote [["g1"], ["g1"], ["g2"], ["g3"]] :=
  ⟨by decide,
   (C5_majority_vote_ceil [["g1"], ["g1"], ["g2"], ["g3"]] "g1" (by decide)).mpr
     (by decide)⟩

theorem count_filter_eq {α : Type _} [DecidableEq α] (p : α → Bool)
    (l : List α) (a : α) :
    (l.filter p).count a = if p a = true then l.count a else 0 := by
  induction l with
  | nil => simp
  | cons x t ih =>
    rw [List.filter_cons]
    by_cases hx : p x = true
    · rw [if_pos hx]
      by_cases hax : x = a
      · subst hax
        rw [List.count_cons_self, List.count_cons_self, ih, if_pos hx]
        simp [hx]
      · rw [List.count_cons_of_ne (by exact fun hc => hax hc.symm),
          List.count_cons_of_ne (by exact fun hc => hax hc.symm), ih]
    · rw [if_neg hx]
      by_cases hax : x = a
      · subst hax
        rw [List.count_cons_self, ih]
        simp [hx]
      · rw [List.count_cons_of_ne (by exact fun hc => hax hc.symm), ih]

/-- A 16-gene per-file list used to exhibit duplication and overflow past
30 entries in the reconciled majority-vote output. -/
def c10ExampleFile : List String :=
  ["a01", "a02", "a03", "a04", "a05", "a06", "a07", "a08",
   "a09", "a10", "a11", "a12", "a13", "a14", "a15", "a16"]

/-- C10: the majority-vote filter preserves multiplicity — a gene whose
occurrence count `k` across the concatenated per-file lists meets the
threshold appears exactly `k` times in the reconciled list, and `0` times
otherwise (first conjunct); consequently the final list may hold duplicate
gene symbols and may exceed 30 entries per direction, exhibited by a
2-file instance whose reconciled list has 32 entries and duplicates
(second conjunct). -/
theorem C10_majority_vote_multiplicity :
    (∀ (perFileLists : List (List String)) (g : String),
      (majorityVote perFileLists).count g =
        if mkRat perFileLists.length 2 ≤ (perFileLists.flatten.count g : ℚ)
        then perFileLists.flatten.count g else 0)
    ∧ 30 < (majorityVote [c10ExampleFile, c10ExampleFile]).length
    ∧ ¬ (majorityVote [c10ExampleFile, c10ExampleFile]).Nodup := by
  refine ⟨?_, by decide, by decide⟩
  intro perFileLists g
  unfold majorityVote
  rw [count_filter_eq]
  by_cases h : mkRat perFileLists.length 2 ≤ (perFileLists.flatten.count g : ℚ)
  · rw [if_pos (decide_eq_true h), if_pos h]
  · rw [if_neg (by simpa using h), if_neg h]

/-! ## Label file: `Main.py` validation and `signiture.py::_read_col_file`

String primitives are modelled on the character lists underlying the
strings, which matches the Python semantics exactly and lets concrete
instances evaluate in the kernel. -/

/-- Python `s.startswith(p)`. -/
def pyStartsWith (s p : String) : Bool := p.data.isPrefixOf s.data

/-- Characters removed by Python `str.strip()` with no argument. -/
def stripChars (l : List Char) : List Char :=
  ((l.dropWhile Char.isWhitespace).reverse.dropWhile Char.isWhitespace).reverse

/-- Python `s.strip()`. -/
def pyStrip (s : String) : String := ⟨stripChars s.data⟩

/-- Python `s.split(',')` on the underlying characters. -/
def splitCommaChars : List Char → List (List Char)
  | [] => [[]]
  | c :: rest =>
    match splitCommaChars rest with
    | [] => [[]]
    | g :: gs => if c = ',' then [] :: g :: gs else (c :: g) :: gs

/-- Python `s.replace('>>', '')`: drop every (left-to-right,
non-overlapping) occurrence of `>>`. -/
def dropGtGt : List Char → List Char
  | '>' :: '>' :: rest => dropGtGt rest
  | c :: rest => c :: dropGtGt rest
  | [] => []

/-- `[val.strip().lower() for val in line.split(',')]`. -/
def parseGroups (l : String) : List String :=
  (splitCommaChars l.data).map (fun g => String.mk ((stripChars g).map Char.toLower))

/-- Python dict assignment `file_groups[k] = v`: replace the value in
place if the key exists (keeping its position), else append. -/
def updateAssoc (k : String) (v : List String) :
    List (String × List String) → List (String × List String)
  | [] => [(k, v)]
  | (k', v') :: rest =>
    if k' = k then (k, v) :: rest else (k', v') :: updateAssoc k v rest

/-- The loop body of `_read_col_file`: strip the line; skip blanks and
`#` comments; a `>>` line replaces the current key (the remainder,
`replace('>>','')` then stripped); any other line under a truthy current
key assigns its comma-split, stripped, lowercased tags to that key. -/
def readColFileAux : Option String → List (String × List String) → List String →
    List (String × List String)
  | _, acc, [] => acc
  | currentKey, acc, line :: rest =>
    let l := pyStrip line
    if l = "" then readColFileAux currentKey acc rest
    else if pyStartsWith l "#" then readColFileAux currentKey acc rest
    else if pyStartsWith l ">>" then
      readColFileAux (some (pyStrip ⟨dropGtGt l.data⟩)) acc rest
    else
      match currentKey with
      | some k =>
        if k = "" then readColFileAux currentKey acc rest
        else readColFileAux currentKey (updateAssoc k (parseGroups l) acc) rest
      | none => readColFileAux none acc rest

/-- `_read_col_file`, as a function of the label file's lines. -/
def readColFile (lines : List String) : List (String × List String) :=
  readColFileAux none [] lines

/-- The `dataset_label.txt` validation loop at the top of `Main.py`
(lines 46–52), as a function of the raw file lines: lines starting with
`#` are skipped; the first other line passes validation iff it starts
with `>>`; a file of only comments (or an empty file) also passes.
`true` means no `ValueError` is raised. -/
def mainValidate : List String → Bool
  | [] => true
  | line :: rest =>
    if pyStartsWith line "#" then mainValidate rest
    else pyStartsWith line ">>"

/-- The validation criterion in the words of the amended claim: after
dropping leading `#`-comment lines, either nothing is left or the next
line is a `>>` header.  Blank lines are not skipped. -/
def validationSpec (lines : List String) : Bool :=
  match lines.dropWhile (fun l => pyStartsWith l "#") with
  | [] => true
  | l :: _ => pyStartsWith l ">>"

/-- C6 counterexample: the label file `["", ">>file1.tsv", "mut, WT"]` has
a `>>` section header and no non-comment, non-blank line before it (first
conjunct: the first non-blank, non-comment line is the header itself), and
label parsing succeeds on it (third conjunct) — yet the startup validation
of `Main.py` raises (second conjunct), because its loop does not skip the
blank first line.  This refutes the success half of the claim. -/
theorem C6_blank_line_counterexample :
    (["", ">>file1.tsv", "mut, WT"].filter
        (fun l => !(pyStrip l = "") && !(pyStartsWith (pyStrip l) "#"))).head?
      = some ">>file1.tsv"
    ∧ mainValidate ["", ">>file1.tsv", "mut, WT"] = false
    ∧ readColFile ["", ">>file1.tsv", "mut, WT"] = [("file1.tsv", ["mut", "wt"])] := by
  refine ⟨by decide, by decide, by decide⟩

/-- C6 (amended): the startup validation succeeds exactly when every line
before the first `>>` header starts with `#` — equivalently, after
dropping leading `#` lines the file is exhausted or reaches a `>>` header
(first conjunct).  Blank lines are not skipped and count as violations: a
file whose first line is blank always raises (second conjunct), even
though the label parser itself skips blank lines.  A file with a
non-comment, non-blank line before the first `>>` header therefore always
raises, as the original claim's failure half states. -/
theorem C6_validation_comment_only_prelude :
    (∀ lines : List String, mainValidate lines = validationSpec lines)
    ∧ (∀ rest : List String, mainValidate ("" :: rest) = false) := by
  constructor
  · intro lines
    induction lines with
    | nil => rfl
    | cons l rest ih =>
      simp only [mainValidate, validationSpec, List.dropWhile_cons]
      by_cases h : pyStartsWith l "#" = true
      · rw [if_pos h, if_pos h]
        exact ih
      · rw [if_neg h, if_neg (by simpa using h)]
  · intro rest
    rfl

/-! ## `analyze.py` — top-10 candidate selection (`get_drug_list`) -/

/-- A row of the `pert_id_summary.gct` data frame: the index entry (a
perturbation identifier) and its `TAG` connectivity score. -/
structure SummaryRow where
  pert_id : String
  tag : ℚ
deriving DecidableEq, Repr

/-- Comparison used by `sort_values('TAG', ascending=True)`. -/
def tagLE (a b : SummaryRow) : Bool := a.tag ≤ b.tag

/-- The candidate-selection core of `get_drug_list`:
`df1 = df1[df1.index.str.startswith('BRD')]` then
`df1 = df1.sort_values('TAG', ascending=True).head(10)`, with
`sort_values` abstracted as `sortfn` (any `SortsBy tagLE` function —
pandas' default `kind='quicksort'` fixes no tie order). -/
def getDrugRowsWith (sortfn : List SummaryRow → List SummaryRow)
    (summary : List SummaryRow) : List SummaryRow :=
  (sortfn (summary.filter (fun r => pyStartsWith r.pert_id "BRD"))).take 10

/-- `drug_list = df1.index.to_list()`: the ranked identifiers. -/
def getDrugListWith (sortfn : List SummaryRow → List SummaryRow)
    (summary : List SummaryRow) : List String :=
  (getDrugRowsWith sortfn summary).map SummaryRow.pert_id

/-- The example table of the claim: TAG values
`{BRD-A: 0.5, BRD-B: -2.1, X-C: -5.0, BRD-D: 1.0}`. -/
def c7Summary : List SummaryRow :=
  [⟨"BRD-A", mkRat 1 2⟩, ⟨"BRD-B", mkRat (-21) 10⟩,
   ⟨"X-C", -5⟩, ⟨"BRD-D", 1⟩]

theorem tagLE_trans (a b c : SummaryRow)
    (hab : tagLE a b = true) (hbc : tagLE b c = true) : tagLE a c = true := by
  unfold tagLE at *
  exact decide_eq_true (le_trans (of_decide_eq_true hab) (of_decide_eq_true hbc))

theorem tagLE_total (a b : SummaryRow) (h : tagLE a b = false) :
    tagLE b a = true := by
  unfold tagLE at *
  exact decide_eq_true (le_of_lt (not_le.mp (of_decide_eq_false h)))

/-- Two `BRD` rows with exactly tied `TAG` scores. -/
def c7TieSummary : List SummaryRow := [⟨"BRD-A", 1⟩, ⟨"BRD-B", 1⟩]

/-- C7 counterexample: the claim prescribes a *stable* ascending sort by
`TAG`, which on the tied table `c7TieSummary` forces the ranked output
`["BRD-A", "BRD-B"]` (fifth conjunct, the stable instance).  But
`sort_values` uses pandas' default `kind='quicksort'`, which is not
stable: its contract admits the tie-reversing `antiSortBy tagLE`, which
on the one list this input sorts is an ascending permutation (first three
conjuncts) yet makes `get_drug_list` rank `["BRD-B", "BRD-A"]` (fourth
conjunct).  The program therefore does not guarantee the stable tie order
the claim states. -/
theorem C7_stable_tie_counterexample :
    antiSortBy tagLE (c7TieSummary.filter (fun r => pyStartsWith r.pert_id "BRD"))
      = [⟨"BRD-B", 1⟩, ⟨"BRD-A", 1⟩]
    ∧ (antiSortBy tagLE (c7TieSummary.filter (fun r => pyStartsWith r.pert_id "BRD"))).Perm
        (c7TieSummary.filter (fun r => pyStartsWith r.pert_id "BRD"))
    ∧ (antiSortBy tagLE (c7TieSummary.filter (fun r => pyStartsWith r.pert_id "BRD"))).Pairwise
        (fun a b => tagLE a b = true)
    ∧ getDrugListWith (antiSortBy tagLE) c7TieSummary = ["BRD-B", "BRD-A"]
    ∧ getDrugListWith (isortBy tagLE) c7TieSummary = ["BRD-A", "BRD-B"] := by
  refine ⟨by decide, ?_, by decide, by decide, by decide⟩
  rw [show antiSortBy tagLE (c7TieSummary.filter (fun r => pyStartsWith r.pert_id "BRD"))
      = [⟨"BRD-B", 1⟩, ⟨"BRD-A", 1⟩] by decide,
    show c7TieSummary.filter (fun r => pyStartsWith r.pert_id "BRD")
      = [⟨"BRD-A", 1⟩, ⟨"BRD-B", 1⟩] by decide]
  exact List.Perm.swap _ _ []

/-- The example's `BRD` rows in ascending `TAG` order (their `TAG` values
are pairwise distinct). -/
def c7SortedRows : List SummaryRow :=
  [⟨"BRD-B", mkRat (-21) 10⟩, ⟨"BRD-A", mkRat 1 2⟩, ⟨"BRD-D", 1⟩]

/-- C7 (amended): for every `sort_values` behaviour permitted by its
contract (`SortsBy tagLE`), `get_drug_list` keeps exactly the
`BRD`-prefixed rows, sorts them ascending by `TAG` and takes the first
10: on the claim's example — whose `TAG` values are pairwise distinct, so
every compliant sort agrees — the ranked output is
`[BRD-B, BRD-A, BRD-D]` with `X-C` excluded regardless of its score
(first conjunct); at most 10 rows are ever selected (second); every
selected row is a `BRD`-prefixed row of the input (third); and the
selection is ascending in `TAG` (fourth).  Tie order is *not* determined:
the counterexample shows two compliant sorts ranking a tied table
differently, so the claim's "stably sorting" clause does not hold of the
program. -/
theorem C7_drug_list_selection_unstable_sort :
    ∀ sortfn : List SummaryRow → List SummaryRow, SortsBy tagLE sortfn →
      getDrugListWith sortfn c7Summary = ["BRD-B", "BRD-A", "BRD-D"]
      ∧ (∀ summary : List SummaryRow, (getDrugListWith sortfn summary).length ≤ 10)
      ∧ (∀ (summary : List SummaryRow) (r : SummaryRow),
          r ∈ getDrugRowsWith sortfn summary →
            pyStartsWith r.pert_id "BRD" = true ∧ r ∈ summary)
      ∧ (∀ summary : List SummaryRow,
          (getDrugRowsWith sortfn summary).Pairwise (fun a b => a.tag ≤ b.tag)) := by
  intro sortfn hs
  refine ⟨?_, ?_, ?_, ?_⟩
  · have hfeq : c7Summary.filter (fun r => pyStartsWith r.pert_id "BRD") =
        [⟨"BRD-A", mkRat 1 2⟩, ⟨"BRD-B", mkRat (-21) 10⟩, ⟨"BRD-D", 1⟩] := by decide
    have hperm : (sortfn (c7Summary.filter (fun r => pyStartsWith r.pert_id "BRD"))).Perm
        c7SortedRows := by
      refine ((hs _).1).trans ?_
      rw [hfeq, c7SortedRows]
      exact List.Perm.swap _ _ _
    have heq : sortfn (c7Summary.filter (fun r => pyStartsWith r.pert_id "BRD")) =
        c7SortedRows :=
      sorted_perm_eq tagLE _ _ hperm (hs _).2 (by decide) (by decide)
    rw [getDrugListWith, getDrugRowsWith, heq]
    decide
  · intro summary
    rw [getDrugListWith, List.length_map, getDrugRowsWith, List.length_take]
    exact min_le_left _ _
  · intro summary r hr
    have hmem : r ∈ summary.filter (fun r => pyStartsWith r.pert_id "BRD") :=
      ((hs _).1.mem_iff).mp (List.take_subset _ _ hr)
    rw [List.mem_filter] at hmem
    exact ⟨hmem.2, hmem.1⟩
  · intro summary
    have htake := ((hs (summary.filter (fun r => pyStartsWith r.pert_id "BRD"))).2).sublist
      (List.take_sublist 10 _)
    exact htake.imp (fun h => of_decide_eq_true h)

/-- Witness for C7's amended theorem at a concrete compliant sort: the
stable insertion sort (`SortsBy` by `isortBy_sortsBy`) ranks the claim's
example as the claim's example output. -/
theorem C7_drug_list_selection_unstable_sort_witness :
    getDrugListWith (isortBy tagLE) c7Summary = ["BRD-B", "BRD-A", "BRD-D"] :=
  (C7_drug_list_selection_unstable_sort (isortBy tagLE)
    (isortBy_sortsBy tagLE tagLE_trans tagLE_total)).1

/-! ## `cmap.py` — job polling (`_status`, `_get_cmap_result`)

The remote service enters the model as the stream `f : ℕ → String` of
status values successive polls would observe, and the completed job
record's `download_url` field as an `Option String`.  The unbounded
`while True` loop is modelled with explicit fuel: `pollLoop f fuel i`
returns the index of the poll at which the loop exits, or `none` if it is
still running after `fuel` more polls. -/

/-- `_status` (cmap.py lines 164–184): returns `False` for
`submitted`/`pending`, `True` for `completed`, and falls off the end —
Python `None` — for every other status value. -/
def statusRet (s : String) : Option Bool :=
  if s = "submitted" || s = "pending" then some false
  else if s = "completed" then some true
  else none

/-- The truthiness of `_status`'s return value as tested by
`if _status(job_id, api_key):` — `None` is falsy, so only `completed`
breaks the loop. -/
def statusTruthy (s : String) : Bool := (statusRet s).getD false

/-- The `while True` polling loop of `_get_cmap_result`: poll; if the
status is truthy, exit with the current poll index; otherwise sleep 180
seconds and poll again. -/
def pollLoop (f : ℕ → String) : ℕ → ℕ → Option ℕ
  | 0, _ => none
  | fuel + 1, i => if statusTruthy (f i) then some i else pollLoop f fuel (i + 1)

/-- Protocol-relative URL normalization in `_get_cmap_result`:
`"https:" + url` when the field starts with `//`. -/
def normalizeUrl (u : String) : String :=
  if pyStartsWith u "//" then "https:" ++ u else u

/-- The retrieval step of `_get_cmap_result` after the loop exits: with a
`download_url` field present, the archive at the normalized URL is
downloaded to `cmap_result_<job_id>.tar.gz` and that name is returned;
with the field absent, only the message `"Download_url 필드가 없음"` is
printed, and the trailing `return out_fname` then reads a local variable
that was never assigned — Python raises `UnboundLocalError`. -/
def retrieveResult (jobId : String) (durl : Option String) :
    Except String (String × String) :=
  match durl with
  | some u => .ok ("cmap_result_" ++ jobId ++ ".tar.gz", normalizeUrl u)
  | none => .error "UnboundLocalError: local variable referenced before assignment"

/-- `_get_cmap_result` end to end: loop until a poll is truthy (within the
given fuel), then run the retrieval step.  `none` means the loop is still
polling. -/
def getCmapResult (jobId : String) (f : ℕ → String) (fuel : ℕ)
    (durl : Option String) : Option (Except String (String × String)) :=
  match pollLoop f fuel 0 with
  | none => none
  | some _ => some (retrieveResult jobId durl)

/-- C9: for every status stream that never reports `completed` — including
unrecognized and error statuses — the polling loop never exits: with any
amount of fuel and from any starting poll it is still running (first
conjunct), and every poll whose status is not truthy is followed by the
sleep and exactly the next poll (second conjunct).  `statusRet` has no
other exit: no terminal failure transition exists. -/
theorem C9_poll_never_exits :
    (∀ f : ℕ → String, (∀ i, f i ≠ "completed") →
      ∀ fuel i, pollLoop f fuel i = none)
    ∧ (∀ (f : ℕ → String) (fuel i : ℕ), statusTruthy (f i) = false →
      pollLoop f (fuel + 1) i = pollLoop f fuel (i + 1)) := by
  constructor
  · intro f hf fuel
    induction fuel with
    | zero => intro i; rfl
    | succ n ih =>
      intro i
      have hnot : statusTruthy (f i) = false := by
        unfold statusTruthy statusRet
        by_cases hsub : (f i = "submitted" || f i = "pending") = true
        · rw [if_pos hsub]; rfl
        · rw [if_neg hsub, if_neg (by simpa using hf i)]; rfl
      rw [pollLoop, if_neg (by simp [hnot])]
      exact ih (i + 1)
  · intro f fuel i h
    rw [pollLoop, if_neg (by simp [h])]

/-- Witness for C9 at concrete inputs: a stream stuck on `pending` keeps
the loop running for 50 polls, and one poll of an unrecognized `ERROR`
status is followed by the next poll. -/
theorem C9_poll_never_exits_witness :
    pollLoop (fun _ => "pending") 50 0 = none
    ∧ pollLoop (fun _ => "ERROR") 3 0 = pollLoop (fun _ => "ERROR") 2 1 :=
  ⟨C9_poll_never_exits.1 (fun _ => "pending")
     (fun _ => show ("pending" : String) ≠ "completed" by decide) 50 0,
   C9_poll_never_exits.2 (fun _ => "ERROR") 2 0 (by decide)⟩

/-- C2 (code bug): run `_get_cmap_result` on a job whose three polls
report `pending, pending, completed` and whose completed record has no
`download_url` field.  The loop exits, the absence is logged — and the
function then raises `UnboundLocalError` at `return out_fname` instead of
returning with no file produced, so the pipeline aborts there.  With the
field present (second conjunct) the same run returns the deterministic
archive name together with the https-normalized download URL. -/
theorem C2_missing_url_raises_unbound_local :
    getCmapResult "job1" (fun i => if i < 2 then "pending" else "completed") 5 none
      = some (.error "UnboundLocalError: local variable referenced before assignment")
    ∧ getCmapResult "job1" (fun i => if i < 2 then "pending" else "completed") 5
        (some "//clue.io/result.tar.gz")
      = some (.ok ("cmap_result_job1.tar.gz", "https://clue.io/result.tar.gz")) :=
  ⟨rfl, rfl⟩

/-! ## `recommendation.py` — enrichment and deduplication (`make_result`)

The ChEMBL name search `_chembl_from_pert_name` enters as a parameter
`lookup : String → Option Molecule` (`none` = no molecule returned, or a
request error), and the similarity search `_similar_from_smile` as
`simil : String → Option (List Molecule)`.  Candidates are the ordered
`(brd, name)` pairs of `brd_dict` (TAG-sorted insertion order); only the
fields the control flow reads are modelled. -/

/-- The fields of a resolved ChEMBL molecule that `make_result`'s control
flow reads: the identifier used for deduplication and the canonical
SMILES keying the similarity search (absent when the record has no
structure). -/
structure Molecule where
  chembl_id : String
  smiles : Option String
deriving DecidableEq, Repr

/-- The first loop of `make_result` (lines 213–222): for each candidate in
order, search ChEMBL by name; on no molecule, `continue` — note that the
candidate is *not* removed from `new_brd`; on a `chembl_id` already held
by `results`, remove the candidate from `new_brd` and `continue`;
otherwise append to `results`.  State: (`results` as an ordered
association list, `new_brd`'s keys). -/
def resolutionAux (lookup : String → Option Molecule) :
    List (String × String) → List (String × Molecule) → List String →
    List (String × Molecule) × List String
  | [], results, newBrd => (results, newBrd)
  | (brd, name) :: rest, results, newBrd =>
    match lookup name with
    | none => resolutionAux lookup rest results newBrd
    | some t =>
      if t.chembl_id ∈ results.map (fun p => p.2.chembl_id) then
        resolutionAux lookup rest results (newBrd.erase brd)
      else
        resolutionAux lookup rest (results ++ [(brd, t)]) newBrd

/-- The resolution loop started from `results = {}` and
`new_brd = brd_dict.copy()`. -/
def resolutionLoop (lookup : String → Option Molecule)
    (cands : List (String × String)) : List (String × Molecule) × List String :=
  resolutionAux lookup cands [] (cands.map Prod.fst)

/-- Python `results[key]`. -/
def lookupAssoc (l : List (String × Molecule)) (k : String) : Option Molecule :=
  (l.find? (fun p => p.1 = k)).map Prod.snd

/-- The second loop of `make_result` (lines 225–230): for each key left in
`new_brd`, read `results[key]` — a `KeyError` when the key was skipped by
the first loop without being removed — and attach the similarity-search
result when the molecule has a SMILES string, `None` otherwise. -/
def similarityAux (simil : String → Option (List Molecule))
    (results : List (String × Molecule)) :
    List String → Except String (List (String × Molecule × Option (List Molecule)))
  | [] => .ok []
  | key :: rest =>
    match lookupAssoc results key with
    | none => .error ("KeyError: " ++ key)
    | some m =>
      let sm := match m.smiles with
        | some s => simil s
        | none => none
      match similarityAux simil results rest with
      | .error e => .error e
      | .ok out => .ok ((key, m, sm) :: out)

/-- `make_result` up to the report formatting: resolution loop, then the
similarity loop over the surviving `new_brd` keys.  An `.error` value is
an uncaught Python exception aborting the run. -/
def makeResult (lookup : String → Option Molecule)
    (simil : String → Option (List Molecule))
    (cands : List (String × String)) :
    Except String (List (String × Molecule × Option (List Molecule))) :=
  let st := resolutionLoop lookup cands
  similarityAux simil st.1 st.2

theorem resolutionAux_ids_nodup (lookup : String → Option Molecule) :
    ∀ (cands : List (String × String)) (acc : List (String × Molecule))
      (nb : List String),
      (acc.map (fun p => p.2.chembl_id)).Nodup →
      (((resolutionAux lookup cands acc nb).1).map (fun p => p.2.chembl_id)).Nodup := by
  intro cands
  induction cands with
  | nil => intro acc nb h; exact h
  | cons c rest ih =>
    intro acc nb h
    obtain ⟨brd, name⟩ := c
    rw [resolutionAux]
    cases hl : lookup name with
    | none => exact ih acc nb h
    | some t =>
      dsimp only
      by_cases hdup : t.chembl_id ∈ acc.map (fun p => p.2.chembl_id)
      · rw [if_pos hdup]
        exact ih acc _ h
      · rw [if_neg hdup]
        apply ih
        rw [List.map_append]
        apply List.Nodup.append h (by simp)
        simpa [List.disjoint_singleton] using hdup

theorem resolutionAux_keys_extends (lookup : String → Option Molecule) :
    ∀ (cands : List (String × String)) (acc : List (String × Molecule))
      (nb : List String),
      ∃ delta : List (String × Molecule),
        (resolutionAux lookup cands acc nb).1 = acc ++ delta ∧
        (delta.map Prod.fst).Sublist (cands.map Prod.fst) := by
  intro cands
  induction cands with
  | nil =>
    intro acc nb
    exact ⟨[], by simp [resolutionAux]⟩
  | cons c rest ih =>
    intro acc nb
    obtain ⟨brd, name⟩ := c
    rw [resolutionAux]
    cases hl : lookup name with
    | none =>
      obtain ⟨delta, heq, hsub⟩ := ih acc nb
      exact ⟨delta, heq, hsub.trans (List.sublist_cons_self _ _)⟩
    | some t =>
      dsimp only
      by_cases hdup : t.chembl_id ∈ acc.map (fun p => p.2.chembl_id)
      · rw [if_pos hdup]
        obtain ⟨delta, heq, hsub⟩ := ih acc (nb.erase brd)
        exact ⟨delta, heq, hsub.trans (List.sublist_cons_self _ _)⟩
      · rw [if_neg hdup]
        obtain ⟨delta, heq, hsub⟩ := ih (acc ++ [(brd, t)]) nb
        refine ⟨(brd, t) :: delta, ?_, ?_⟩
        · rw [heq, List.append_assoc, List.singleton_append]
        · simpa using hsub.cons₂ brd

/-- The resolution outcome of the claim's example: three candidates whose
names resolve to ChEMBL identifiers X, Y, X in that priority order. -/
def c8Lookup (n : String) : Option Molecule :=
  if n = "n1" then some ⟨"CHEMBL_X", some "smilesX"⟩
  else if n = "n2" then some ⟨"CHEMBL_Y", none⟩
  else if n = "n3" then some ⟨"CHEMBL_X", some "smilesZ"⟩
  else none

/-- The claim's example candidates, in priority (TAG-sorted) order. -/
def c8Cands : List (String × String) := [("1", "n1"), ("2", "n2"), ("3", "n3")]

/-- C8: first-seen-wins deduplication in `make_result`.  In general, no
two retained candidates share a resolved ChEMBL identifier (first
conjunct) and the retained candidates are a subsequence of the input
candidates — dropped, never merged or reordered (second conjunct).  On
the claim's example `[(1, X), (2, Y), (3, X)]`, the retained set is
`{1, 2}` in order (third conjunct); candidate 3 is dropped entirely —
removed from `new_brd`, hence it receives no similarity search and no
report entry (fourth conjunct) — and the remainder of `make_result`
completes without error on exactly the retained candidates (fifth
conjunct). -/
theorem C8_first_seen_wins_dedup :
    (∀ (lookup : String → Option Molecule) (cands : List (String × String)),
      (((resolutionLoop lookup cands).1).map (fun p => p.2.chembl_id)).Nodup)
    ∧ (∀ (lookup : String → Option Molecule) (cands : List (String × String)),
      (((resolutionLoop lookup cands).1).map Prod.fst).Sublist (cands.map Prod.fst))
    ∧ (resolutionLoop c8Lookup c8Cands).1.map Prod.fst = ["1", "2"]
    ∧ "3" ∉ (resolutionLoop c8Lookup c8Cands).2
    ∧ makeResult c8Lookup (fun _ => some []) c8Cands =
        .ok [("1", ⟨"CHEMBL_X", some "smilesX"⟩, some []),
             ("2", ⟨"CHEMBL_Y", none⟩, none)] := by
  refine ⟨?_, ?_, by decide, by decide, rfl⟩
  · intro lookup cands
    exact resolutionAux_ids_nodup lookup cands [] _ (by simp)
  · intro lookup cands
    obtain ⟨delta, heq, hsub⟩ := resolutionAux_keys_extends lookup cands [] (cands.map Prod.fst)
    rw [resolutionLoop, heq]
    simpa using hsub

/-- The C1 failing input: candidate `BRD-1` resolves, candidate `BRD-2`'s
name search returns no molecule. -/
def c1Lookup (n : String) : Option Molecule :=
  if n = "nameA" then some ⟨"CHEMBL_A", none⟩ else none

/-- C1 (code bug): a candidate whose ChEMBL name search returns no
molecule gets no entry in `results` (first conjunct) — but the first loop
of `make_result` forgets to remove it from `new_brd` (second conjunct:
`BRD-2` is still there), so the similarity loop dereferences
`results["BRD-2"]` and the run aborts with a `KeyError` (third conjunct)
instead of completing for the remaining candidates as the claim states. -/
theorem C1_unmatched_candidate_keyerror :
    (resolutionLoop c1Lookup [("BRD-1", "nameA"), ("BRD-2", "nameB")]).1.map Prod.fst
      = ["BRD-1"]
    ∧ (resolutionLoop c1Lookup [("BRD-1", "nameA"), ("BRD-2", "nameB")]).2
      = ["BRD-1", "BRD-2"]
    ∧ makeResult c1Lookup (fun _ => none) [("BRD-1", "nameA"), ("BRD-2", "nameB")]
      = .error "KeyError: BRD-2" := by
  refine ⟨by decide, by decide, rfl⟩

end BioDB
